import Mathlib

/-!
Shallow embedding of the A* search engine in `src/Graph.ts` (`aStarSearch`),
together with theorems settling the specification claims about it.

The embedding follows the TypeScript source line by line:
- the open list is an array of `[Node, number, Node]` triples
  (node, accumulated g, parent); `g` starts at 0 and every push uses `q[1]+1`;
- the pop step scans the open list for the entry with minimal `f = g + h`
  (the `minf >= ...` comparison makes the last minimal index win);
- each successor is goal-tested *before* the open/closed skip checks;
- on goal, the path is rebuilt from `[next, q[0]]` by chasing parent links
  through the closed list (first match by `==`), then reversed, and the
  reported cost is `q[1] + 1`;
- timing (`Date.now() - begin`) is modelled by an explicit clock function
  `clock : Nat → Int` giving the elapsed milliseconds observed at the
  t-th loop-condition check, and the unbounded `while` loop is given fuel;
  `none` means the fuel ran out while the search was still running, so every
  genuine outcome of the TypeScript function is a `some`.
-/

/-- An edge in a graph (class `Edge` in the source); `from` is a Lean keyword,
so the field is called `from'`. -/
structure Edge (N : Type) where
  from' : N
  to' : N
  cost : Int
deriving DecidableEq, Repr

/-- A directed graph (interface `Graph` in the source): successor generation
plus the caller-supplied three-way comparator. -/
structure Graph (N : Type) where
  outgoingEdges : N → List (Edge N)
  compareNodes : N → N → Int

/-- Result of a search (class `SearchResult` in the source). -/
structure SearchResult (N : Type) where
  path : List N
  cost : Nat
deriving DecidableEq, Repr

/-- One `[Node, number, Node]` triple of the open/closed arrays:
node, accumulated g, parent (`undefined` for the start). -/
structure Entry (N : Type) where
  node : N
  g : Nat
  parent : Option N
deriving DecidableEq, Repr

/-- The mutable state of the search loop: the open and closed arrays. -/
structure St (N : Type) where
  open' : List (Entry N)
  closed : List (Entry N)
deriving DecidableEq, Repr

/-- `f = g + heuristics(node)` of an open-list entry (lines 68/70 of the source). -/
def entryF {N : Type} (h : N → Int) (e : Entry N) : Int :=
  (e.g : Int) + h e.node

/-- The index chosen by the pop scan (lines 67-74): start from index 0 with
`minf = f(open[0])`, and for each `i` with `minf >= f(open[i])` move to `i`.
The last index attaining the minimum f wins. -/
def selectIndex {N : Type} (h : N → Int) (l : List (Entry N)) : Nat :=
  match l with
  | [] => 0
  | e0 :: _ =>
    ((List.range l.length).foldl
      (fun acc i =>
        match l.get? i with
        | some e => if acc.2 ≥ entryF h e then (i, entryF h e) else acc
        | none => acc)
      (0, entryF h e0)).1

/-- The parent-chain walk of the path reconstructor (lines 85-94): starting
from `q[2]`, repeatedly push the node and replace it by the parent of its
first occurrence (by `==`) in the closed list; stop on `undefined`.
The source `while` is unbounded (and diverges if a chain node is missing from
the closed list); the walk is fuelled, and callers pass `closed.length + 1`,
which reproduces the source behaviour whenever the walk terminates. -/
def chase {N : Type} [DecidableEq N] (closed : List (Entry N)) :
    Nat → Option N → List N
  | 0, _ => []
  | _ + 1, none => []
  | fuel + 1, some n =>
    n :: (match closed.find? (fun e => e.node = n) with
          | some e => chase closed fuel e.parent
          | none => chase closed fuel (some n))

/-- Path reconstruction and result construction (lines 84-99): the path is
`reverse ([next, q.node] ++ parent chain of q)` and the cost is `q.g + 1`. -/
def mkResult {N : Type} [DecidableEq N] (closed : List (Entry N)) (q : Entry N)
    (next : N) : SearchResult N :=
  { path := (next :: q.node :: chase closed (closed.length + 1) q.parent).reverse
    cost := q.g + 1 }

/-- The labelled successor loop (lines 77-118): for each edge, goal-test its
target first (returning a reconstructed result on success), then skip it when
the open list holds a comparator-equal entry with `g ≤ q.g + 1` or the closed
list holds any comparator-equal entry, and otherwise append
`(next, q.g + 1, q.node)` to the open list. -/
def processEdges {N : Type} [DecidableEq N] (G : Graph N) (goal : N → Bool)
    (q : Entry N) (closed : List (Entry N)) :
    List (Edge N) → List (Entry N) → Sum (SearchResult N) (List (Entry N))
  | [], op => Sum.inr op
  | e :: es, op =>
    if goal e.to' then
      Sum.inl (mkResult closed q e.to')
    else if op.any (fun o => G.compareNodes o.node e.to' == 0 && o.g ≤ q.g + 1) then
      processEdges G goal q closed es op
    else if closed.any (fun c => G.compareNodes c.node e.to' == 0) then
      processEdges G goal q closed es op
    else
      processEdges G goal q closed es (op ++ [⟨e.to', q.g + 1, some q.node⟩])

/-- One iteration of the `while` body (lines 67-119): pop the minimum-f entry,
process its successor edges, and on no goal append the popped entry to the
closed list. -/
def expandStep {N : Type} [DecidableEq N] (G : Graph N) (goal : N → Bool)
    (h : N → Int) (s : St N) : Sum (SearchResult N) (St N) :=
  match s.open'.get? (selectIndex h s.open') with
  | none => Sum.inr s
  | some q =>
    match processEdges G goal q s.closed (G.outgoingEdges q.node)
        (s.open'.eraseIdx (selectIndex h s.open')) with
    | Sum.inl r => Sum.inl r
    | Sum.inr op' => Sum.inr ⟨op', s.closed ++ [q]⟩

/-- The string thrown at line 121, for both frontier exhaustion and timeout. -/
def exhaustMsg : String := "Open list empty but goal not reached."

/-- The fuelled `while` loop (lines 65-121): at the t-th check the loop
continues iff the open list is nonempty and `clock t ≤ timeout * 1000`;
otherwise the function throws `exhaustMsg`. -/
def loop {N : Type} [DecidableEq N] (G : Graph N) (goal : N → Bool)
    (h : N → Int) (timeout : Int) (clock : Nat → Int) :
    Nat → Nat → St N → Option (Except String (SearchResult N))
  | 0, _, _ => none
  | fuel + 1, t, s =>
    if 0 < s.open'.length ∧ clock t ≤ timeout * 1000 then
      match expandStep G goal h s with
      | Sum.inl r => some (Except.ok r)
      | Sum.inr s' => loop G goal h timeout clock fuel (t + 1) s'
    else
      some (Except.error exhaustMsg)

/-- The embedded `aStarSearch` (lines 51-122): start from
`open = [[start, 0, undefined]]`, `closed = []`. -/
def aStarSearch {N : Type} [DecidableEq N] (G : Graph N) (start : N)
    (goal : N → Bool) (h : N → Int) (timeout : Int) (clock : Nat → Int)
    (fuel : Nat) : Option (Except String (SearchResult N)) :=
  loop G goal h timeout clock fuel 0 ⟨[⟨start, 0, none⟩], []⟩

/-- The trace of loop states: the state observed at each loop-condition check
of the same run as `loop` (instrumentation only; same guard, same step). -/
def runSts {N : Type} [DecidableEq N] (G : Graph N) (goal : N → Bool)
    (h : N → Int) (timeout : Int) (clock : Nat → Int) :
    Nat → Nat → St N → List (St N)
  | 0, _, _ => []
  | fuel + 1, t, s =>
    if 0 < s.open'.length ∧ clock t ≤ timeout * 1000 then
      match expandStep G goal h s with
      | Sum.inl _ => [s]
      | Sum.inr s' => s :: runSts G goal h timeout clock fuel (t + 1) s'
    else
      [s]

/-- Does a list of nodes form a path in `G`, i.e. is every consecutive pair
connected by an edge returned by `outgoingEdges`? -/
def isPath {N : Type} [DecidableEq N] (G : Graph N) : List N → Bool
  | [] => true
  | [_] => true
  | a :: b :: rest =>
    (G.outgoingEdges a).any (fun e => e.to' = b) && isPath G (b :: rest)

/-- Sum of the costs of the edges along a node list (first matching edge per
consecutive pair); `none` when some pair is not connected. -/
def pathCostSum {N : Type} [DecidableEq N] (G : Graph N) : List N → Option Int
  | [] => some 0
  | [_] => some 0
  | a :: b :: rest =>
    match (G.outgoingEdges a).find? (fun e => e.to' = b),
        pathCostSum G (b :: rest) with
    | some e, some c => some (e.cost + c)
    | _, _ => none

/-- A lawful three-way comparator on naturals. -/
def natCmp (a b : Nat) : Int :=
  if a < b then -1 else if b < a then 1 else 0

/-- A clock that never advances (all checks observe 0 elapsed ms). -/
def czero : Nat → Int := fun _ => 0

-- ============ concrete instances for the claims ============

/-- Graph for C1: `0 → 2` (cost 10), `0 → 1` (cost 1), `1 → 2` (cost 1).
All costs non-negative; the cheapest path to node 2 is `[0,1,2]` (cost 2). -/
def G1 : Graph Nat :=
  { outgoingEdges := fun n =>
      match n with
      | 0 => [⟨0, 2, 10⟩, ⟨0, 1, 1⟩]
      | 1 => [⟨1, 2, 1⟩]
      | _ => []
    compareNodes := natCmp }

/-- Single-edge graph for C2/C3/C6: `0 → 1` with cost 5. -/
def G2 : Graph Nat :=
  { outgoingEdges := fun n =>
      match n with
      | 0 => [⟨0, 1, 5⟩]
      | _ => []
    compareNodes := natCmp }

/-- Goal predicate "node is 1". -/
def goalIs1 : Nat → Bool := fun n => n == 1

/-- Goal predicate "node is 2". -/
def goalIs2 : Nat → Bool := fun n => n == 2

/-- Goal predicate that always fails. -/
def goalNever : Nat → Bool := fun _ => false

/-- Goal predicate that always holds. -/
def goalAlways : Nat → Bool := fun _ => true

/-- The zero heuristic (admissible and consistent for every graph with
non-negative costs). -/
def hZero : Nat → Int := fun _ => 0

/-- Graph for C5: a single node 0 with no outgoing edges. -/
def G5 : Graph Nat :=
  { outgoingEdges := fun _ => [], compareNodes := natCmp }

/-- Graph for C8/C9: `0 → 1`, `0 → 3`, `1 → 2`, `2 → 4`, `3 → 4`
(unit costs, lawful comparator). Node 4 is reached first with g = 3 via
`0,1,2` and later with g = 2 via `0,3`. -/
def G8 : Graph Nat :=
  { outgoingEdges := fun n =>
      match n with
      | 0 => [⟨0, 1, 1⟩, ⟨0, 3, 1⟩]
      | 1 => [⟨1, 2, 1⟩]
      | 2 => [⟨2, 4, 1⟩]
      | 3 => [⟨3, 4, 1⟩]
      | _ => []
    compareNodes := natCmp }

/-- Heuristic for the C8/C9 trace: delays node 3 and node 4. -/
def h8 : Nat → Int := fun n =>
  match n with
  | 3 => 2
  | 4 => 1
  | _ => 0

/-- Does the open list hold two comparator-equal entries? -/
def hasDupOpen {N : Type} (G : Graph N) (l : List (Entry N)) : Bool :=
  l.enum.any (fun p =>
    (l.drop (p.1 + 1)).any (fun e' => G.compareNodes p.2.node e'.node == 0))

/-- Graph for C10: `0 → 1`, `0 → 4`, `1 → 2`, `2 → 3`, `3 → 5`, `4 → 3`,
`5 → 6`, all edges with cost 1, and a comparator that never reports equality
(the source never validates the comparator). -/
def G10 : Graph Nat :=
  { outgoingEdges := fun n =>
      match n with
      | 0 => [⟨0, 1, 1⟩, ⟨0, 4, 1⟩]
      | 1 => [⟨1, 2, 1⟩]
      | 2 => [⟨2, 3, 1⟩]
      | 3 => [⟨3, 5, 1⟩]
      | 4 => [⟨4, 3, 1⟩]
      | 5 => [⟨5, 6, 1⟩]
      | _ => []
    compareNodes := fun _ _ => 1 }

/-- Heuristic for the C10 trace. -/
def h10 : Nat → Int := fun n =>
  match n with
  | 3 => -2
  | 4 => 2
  | _ => 0

/-- Goal predicate "node is 6". -/
def goalIs6 : Nat → Bool := fun n => n == 6

/-- Variant of `G2` that differs only in the cost of its single edge
(7 instead of 5). -/
def G2b : Graph Nat :=
  { outgoingEdges := fun n =>
      match n with
      | 0 => [⟨0, 1, 7⟩]
      | _ => []
    compareNodes := natCmp }

/-- A clock that advances by 2000 ms per loop-condition check. -/
def clockFast : Nat → Int := fun t => 2000 * t

-- ===================== theorems =====================

/-- C1 (code bug): with all edge costs non-negative and the zero heuristic
(admissible and consistent), the search on `G1` from 0 to "node 2" returns
the direct path `[0, 2]` with cost 1, whereas the true shortest-path cost is
2 (along `[0, 1, 2]`) and the returned path itself costs 10: the returned
`cost` is not the shortest-path cost. -/
theorem c1_cost_not_shortest :
    aStarSearch G1 0 goalIs2 hZero 100 czero 10 =
      some (Except.ok ⟨[0, 2], 1⟩) ∧
    isPath G1 [0, 1, 2] = true ∧
    pathCostSum G1 [0, 1, 2] = some 2 ∧
    pathCostSum G1 [0, 2] = some 10 ∧
    (2 : Int) ≠ 1 ∧ (10 : Int) ≠ 1 :=
  ⟨rfl, rfl, rfl, rfl, by decide, by decide⟩

/-- C2 (code bug): on the single-edge graph `G2` (edge `0 → 1` of cost 5)
the search returns the path `[0, 1]` with cost 1, but the sum of the edge
costs along that path is 5: the returned `cost` is not the sum of the
traversed edges' cost fields. -/
theorem c2_cost_not_edge_sum :
    aStarSearch G2 0 goalIs1 hZero 100 czero 10 =
      some (Except.ok ⟨[0, 1], 1⟩) ∧
    isPath G2 [0, 1] = true ∧
    pathCostSum G2 [0, 1] = some 5 ∧
    (5 : Int) ≠ 1 :=
  ⟨rfl, rfl, rfl, by decide⟩

/-- C3 (counterexample): one expansion step from the initial state of `G2`
returns a result even though the popped node (0) does not satisfy the goal
predicate — the goal is tested on the freshly generated successor 1, not on
the node removed from the frontier. -/
theorem c3_goal_tested_on_successor :
    expandStep G2 goalIs1 hZero ⟨[⟨0, 0, none⟩], []⟩ =
      Sum.inl ⟨[0, 1], 1⟩ ∧
    goalIs1 0 = false :=
  ⟨rfl, rfl⟩

/-- C3 (amended): the successor loop returns a `GoalFound` result exactly
when some freshly generated successor (the target of an outgoing edge of the
popped node) satisfies the goal predicate; the popped node itself is never
goal-tested. -/
theorem c3_found_iff_successor_goal {N : Type} [DecidableEq N] (G : Graph N)
    (goal : N → Bool) (q : Entry N) (closed : List (Entry N))
    (es : List (Edge N)) (op : List (Entry N)) :
    (∃ r, processEdges G goal q closed es op = Sum.inl r) ↔
      (es.any fun e => goal e.to') = true := by
  induction es generalizing op with
  | nil => simp [processEdges]
  | cons e es ih =>
    rw [List.any_cons]
    by_cases hg : goal e.to' = true
    · simp [processEdges, hg]
    · have hg' : goal e.to' = false := by
        simpa using hg
      simp only [processEdges, hg', Bool.false_or, Bool.false_eq_true, if_false]
      split
      · exact ih _
      · split
        · exact ih _
        · exact ih _

/-- C4 (counterexample): expanding the start entry of `G2` (edge `0 → 1`
with cost 5) inserts the frontier entry `(1, g = 1, parent = 0)`: the stored
candidate is `q.g + 1 = 1`, not `q.g + cost = 5`. -/
theorem c4_g_increment_ignores_cost :
    expandStep G2 goalNever hZero ⟨[⟨0, 0, none⟩], []⟩ =
      Sum.inr ⟨[⟨1, 1, some 0⟩], [⟨0, 0, none⟩]⟩ ∧
    (G2.outgoingEdges 0).map Edge.cost = [5] ∧
    (1 : Nat) ≠ 0 + 5 :=
  ⟨rfl, rfl, by decide⟩

/-- C4 (amended): every frontier entry inserted by the successor loop
carries `g = q.g + 1` (a fixed increment of one per edge, ignoring the
edge's cost field) and `parent = q.node`. -/
theorem c4_new_frontier_g_is_succ {N : Type} [DecidableEq N] (G : Graph N)
    (goal : N → Bool) (q : Entry N) (closed : List (Entry N)) :
    ∀ (es : List (Edge N)) (op op' : List (Entry N)),
      processEdges G goal q closed es op = Sum.inr op' →
      ∀ e' ∈ op', e' ∈ op ∨ (e'.g = q.g + 1 ∧ e'.parent = some q.node) := by
  intro es
  induction es with
  | nil =>
    intro op op' hpr e' he'
    simp only [processEdges, Sum.inr.injEq] at hpr
    subst hpr
    exact Or.inl he'
  | cons e es ih =>
    intro op op' hpr e' he'
    simp only [processEdges] at hpr
    split at hpr
    · exact absurd hpr (by simp)
    · split at hpr
      · exact ih op op' hpr e' he'
      · split at hpr
        · exact ih op op' hpr e' he'
        · rcases ih _ op' hpr e' he' with hin | hnew
          · rcases List.mem_append.mp hin with hl | hr
            · exact Or.inl hl
            · rcases List.mem_singleton.mp hr with rfl
              exact Or.inr ⟨rfl, rfl⟩
          · exact Or.inr hnew

/-- C4 (witness): instantiating the amended theorem on the `G2` expansion
that inserted the entry `(1, 1, some 0)`. -/
theorem c4_new_frontier_g_is_succ_w :
    (⟨1, 1, some 0⟩ : Entry Nat) ∈ ([] : List (Entry Nat)) ∨
      ((1 : Nat) = 0 + 1 ∧ (some 0 : Option Nat) = some 0) :=
  c4_new_frontier_g_is_succ G2 goalNever ⟨0, 0, none⟩ []
    (G2.outgoingEdges 0) [] [⟨1, 1, some 0⟩] rfl ⟨1, 1, some 0⟩ (by decide)

/-- C5 (code bug): on the edgeless graph `G5` with a goal predicate that
holds everywhere (in particular on the start node), the search does not
return `(path = [0], cost = 0)`; it throws the exhaustion error, because the
goal is never tested on the start node. -/
theorem c5_goal_at_start_fails :
    goalAlways 0 = true ∧
    aStarSearch G5 0 goalAlways hZero 100 czero 3 =
      some (Except.error exhaustMsg) :=
  ⟨rfl, rfl⟩

/-- C6 (counterexample): with a time budget of exactly zero (and a clock
still reading 0 elapsed ms) the search does not fail immediately: it
performs an expansion and even returns a successful result on `G2`. -/
theorem c6_zero_budget_still_expands :
    aStarSearch G2 0 goalIs1 hZero 0 czero 3 =
      some (Except.ok ⟨[0, 1], 1⟩) :=
  rfl

/-- C6 (amended): a strictly negative time budget fails immediately with the
single terminal error (`exhaustMsg`), before any expansion, for every graph,
start node, goal, heuristic and (non-negative) clock; a budget of exactly
zero enjoys no such guarantee (see the counterexample). -/
theorem c6_negative_budget_fails_immediately {N : Type} [DecidableEq N]
    (G : Graph N) (start : N) (goal : N → Bool) (h : N → Int) (timeout : Int)
    (clock : Nat → Int) (fuel : Nat) (hneg : timeout < 0)
    (hclk : 0 ≤ clock 0) :
    aStarSearch G start goal h timeout clock (fuel + 1) =
      some (Except.error exhaustMsg) := by
  have hlt : timeout * 1000 < 0 :=
    mul_neg_of_neg_of_pos hneg (by norm_num)
  have hcond :
      ¬ (0 < ([⟨start, 0, none⟩] : List (Entry N)).length ∧
          clock 0 ≤ timeout * 1000) := by
    rintro ⟨-, hle⟩
    exact absurd (le_trans hclk hle) (not_le.mpr hlt)
  unfold aStarSearch
  simp only [loop]
  rw [if_neg hcond]

/-- C6 (witness): the amended theorem applied at budget `-1`, the zero
clock, and the edgeless graph `G5`. -/
theorem c6_negative_budget_fails_immediately_w :
    (-1 : Int) < 0 ∧ (0 : Int) ≤ czero 0 ∧
    aStarSearch G5 0 goalAlways hZero (-1) czero 3 =
      some (Except.error exhaustMsg) :=
  ⟨by decide, by decide,
    c6_negative_budget_fails_immediately G5 0 goalAlways hZero (-1) czero 2
      (by decide) (by decide)⟩

/-- C7 (counterexample): an exhaustion failure (frontier emptied on `G5`)
and a timeout failure (budget of 1 s overrun on `G2`, whose final observed
state still has a nonempty frontier) surface as the *same* thrown value:
the two failure kinds are collapsed into one generic failure. -/
theorem c7_failures_not_distinguished :
    aStarSearch G5 0 goalNever hZero 100 czero 3 =
      some (Except.error exhaustMsg) ∧
    aStarSearch G2 0 goalNever hZero 1 clockFast 3 =
      some (Except.error exhaustMsg) ∧
    ((runSts G2 goalNever hZero 1 clockFast 3 0
        ⟨[⟨0, 0, none⟩], []⟩).getLast?.map (fun s => s.open'.length)) =
      some 1 :=
  ⟨rfl, rfl, rfl⟩

/-- Helper for C7: every error the loop can produce carries the single
string `exhaustMsg`, for exhaustion and timeout alike. -/
theorem loopErrorIsExhaust {N : Type} [DecidableEq N] (G : Graph N)
    (goal : N → Bool) (h : N → Int) (timeout : Int) (clock : Nat → Int) :
    ∀ (fuel t : Nat) (s : St N) (msg : String),
      loop G goal h timeout clock fuel t s = some (Except.error msg) →
      msg = exhaustMsg := by
  intro fuel
  induction fuel with
  | zero =>
    intro t s msg hl
    simp [loop] at hl
  | succ f ih =>
    intro t s msg hl
    simp only [loop] at hl
    split at hl
    · split at hl
      · simp at hl
      · exact ih _ _ _ hl
    · simp only [Option.some.injEq] at hl
      cases hl
      rfl

/-- C7 (amended): whenever `aStarSearch` fails, the failure is the one
generic error value `exhaustMsg`; timeout and exhaustion are not
distinguished, and no partial path accompanies a failure. -/
theorem c7_only_one_failure_value {N : Type} [DecidableEq N] (G : Graph N)
    (start : N) (goal : N → Bool) (h : N → Int) (timeout : Int)
    (clock : Nat → Int) (fuel : Nat) (msg : String)
    (hrun : aStarSearch G start goal h timeout clock fuel =
      some (Except.error msg)) :
    msg = exhaustMsg :=
  loopErrorIsExhaust G goal h timeout clock fuel 0 _ msg hrun

/-- C7 (witness): the amended theorem applied to the concrete exhaustion
run on `G5`. -/
theorem c7_only_one_failure_value_w : exhaustMsg = exhaustMsg :=
  c7_only_one_failure_value G5 0 goalNever hZero 100 czero 3 exhaustMsg rfl

/-- C8 (counterexample): during the run of `aStarSearch` on `G8` (lawful
comparator, unit costs) the frontier passes through a state holding *two*
comparator-equal entries for node 4 — when the cheaper path `0,3,4` (g = 2)
is found, a second entry is appended instead of replacing the existing
`g = 3` entry. -/
theorem c8_frontier_holds_duplicates :
    (runSts G8 goalNever h8 100 czero 10 0 ⟨[⟨0, 0, none⟩], []⟩).any
        (fun s => hasDupOpen G8 s.open') = true ∧
    aStarSearch G8 0 goalNever h8 100 czero 10 =
      some (Except.error exhaustMsg) :=
  ⟨rfl, rfl⟩

/-- C8 (amended): when a successor is strictly cheaper than every
comparator-equal frontier entry (and its node is not closed and not a
goal), the successor loop *appends* a new entry `(next, q.g + 1, q.node)`
to the end of the frontier, keeping every existing entry — the old entry
for the node is not removed or replaced. -/
theorem c8_improvement_appends_new_entry {N : Type} [DecidableEq N]
    (G : Graph N) (goal : N → Bool) (q : Entry N) (closed : List (Entry N))
    (e : Edge N) (es : List (Edge N)) (op : List (Entry N))
    (hg : goal e.to' = false)
    (hop : ∀ o ∈ op, G.compareNodes o.node e.to' = 0 → q.g + 1 < o.g)
    (hcl : ∀ c ∈ closed, G.compareNodes c.node e.to' ≠ 0) :
    processEdges G goal q closed (e :: es) op =
      processEdges G goal q closed es (op ++ [⟨e.to', q.g + 1, some q.node⟩]) := by
  have hany1 :
      (op.any fun o =>
        G.compareNodes o.node e.to' == 0 && decide (o.g ≤ q.g + 1)) = false := by
    rw [List.any_eq_false]
    intro o ho
    by_cases hc : G.compareNodes o.node e.to' = 0
    · have := hop o ho hc
      simp [hc, Nat.not_le.mpr this]
    · simp [hc]
  have hany2 :
      (closed.any fun c => G.compareNodes c.node e.to' == 0) = false := by
    rw [List.any_eq_false]
    intro c hc
    simp [hcl c hc]
  simp only [processEdges, hg, hany1, hany2, Bool.false_eq_true, if_false]

/-- C8 (witness): the amended theorem applied at the `G8` trace step where
the cheaper path to node 4 (candidate g = 2) meets the existing frontier
entry `(4, 3, some 2)`: the new entry is appended after it. -/
theorem c8_improvement_appends_new_entry_w :
    processEdges G8 goalNever ⟨3, 1, some 0⟩
        [⟨0, 0, none⟩, ⟨1, 1, some 0⟩, ⟨2, 2, some 1⟩]
        [⟨3, 4, 1⟩] [⟨4, 3, some 2⟩] =
      processEdges G8 goalNever ⟨3, 1, some 0⟩
        [⟨0, 0, none⟩, ⟨1, 1, some 0⟩, ⟨2, 2, some 1⟩]
        [] ([⟨4, 3, some 2⟩] ++ [⟨4, 2, some 3⟩]) :=
  c8_improvement_appends_new_entry G8 goalNever ⟨3, 1, some 0⟩
    [⟨0, 0, none⟩, ⟨1, 1, some 0⟩, ⟨2, 2, some 1⟩]
    ⟨3, 4, 1⟩ [] [⟨4, 3, some 2⟩]
    (by decide) (by decide) (by decide)

/-- C9 (counterexample): in the same `G8` run, node 4 is moved from the
frontier to the closed list twice (both duplicate entries are eventually
popped and recorded), so a node is expanded and recorded in the visited set
more than once. -/
theorem c9_node_visited_twice :
    (runSts G8 goalNever h8 100 czero 10 0 ⟨[⟨0, 0, none⟩], []⟩).any
        (fun s =>
          2 ≤ s.closed.countP (fun c => G8.compareNodes c.node 4 == 0)) =
      true :=
  rfl

/-- C9 (amended): a node with a comparator-equal entry in the visited
(closed) set is never admitted as a new frontier entry — every entry the
successor loop adds is comparator-distinct from the whole closed list;
re-expansion nevertheless remains possible through duplicate frontier
entries admitted before the node was first closed. -/
theorem c9_closed_nodes_not_readmitted {N : Type} [DecidableEq N]
    (G : Graph N) (goal : N → Bool) (q : Entry N) (closed : List (Entry N)) :
    ∀ (es : List (Edge N)) (op op' : List (Entry N)),
      processEdges G goal q closed es op = Sum.inr op' →
      ∀ e' ∈ op', e' ∈ op ∨ ∀ c ∈ closed, ¬ G.compareNodes c.node e'.node = 0 := by
  intro es
  induction es with
  | nil =>
    intro op op' hpr e' he'
    simp only [processEdges, Sum.inr.injEq] at hpr
    subst hpr
    exact Or.inl he'
  | cons e es ih =>
    intro op op' hpr e' he'
    simp only [processEdges] at hpr
    split at hpr
    · exact absurd hpr (by simp)
    · split at hpr
      · exact ih op op' hpr e' he'
      · rename_i hcl
        split at hpr
        · exact ih op op' hpr e' he'
        · rename_i hclosed
          rcases ih _ op' hpr e' he' with hin | hno
          · rcases List.mem_append.mp hin with hl | hr
            · exact Or.inl hl
            · rcases List.mem_singleton.mp hr with rfl
              refine Or.inr ?_
              intro c hc hc0
              apply hclosed
              rw [List.any_eq_true]
              exact ⟨c, hc, by simpa using hc0⟩
          · exact Or.inr hno

/-- C9 (witness): instantiating the amended theorem on the `G8` expansion of
node 3 (closed list `[0, 1, 2]`), which admitted the entry `(4, 2, some 3)`. -/
theorem c9_closed_nodes_not_readmitted_w :
    (⟨4, 2, some 3⟩ : Entry Nat) ∈ [(⟨4, 3, some 2⟩ : Entry Nat)] ∨
      ∀ c ∈ [(⟨0, 0, none⟩ : Entry Nat), ⟨1, 1, some 0⟩, ⟨2, 2, some 1⟩],
        ¬ G8.compareNodes c.node 4 = 0 :=
  c9_closed_nodes_not_readmitted G8 goalNever ⟨3, 1, some 0⟩
    [⟨0, 0, none⟩, ⟨1, 1, some 0⟩, ⟨2, 2, some 1⟩]
    [⟨3, 4, 1⟩] [⟨4, 3, some 2⟩] [⟨4, 3, some 2⟩, ⟨4, 2, some 3⟩]
    rfl ⟨4, 2, some 3⟩ (by decide)

/-- C10 (counterexample): a run of `aStarSearch` on `G10` (all edge costs
non-negative, namely 1) that returns the 6-node path `[0,1,2,3,5,6]`
(5 edges) with cost 4: the returned cost is *not* the number of edges in
the returned path, because node 3 is expanded twice and the path is rebuilt
through the first closed occurrence of node 3 while the cost comes from the
second. -/
theorem c10_cost_not_edge_count :
    aStarSearch G10 0 goalIs6 h10 1000 czero 12 =
      some (Except.ok ⟨[0, 1, 2, 3, 5, 6], 4⟩) ∧
    isPath G10 [0, 1, 2, 3, 5, 6] = true ∧
    (∀ n ∈ [0, 1, 2, 3, 4, 5, 6],
      ∀ e ∈ G10.outgoingEdges n, 0 ≤ e.cost) ∧
    ([0, 1, 2, 3, 5, 6] : List Nat).length ≠ 4 + 1 :=
  ⟨rfl, rfl, by decide, by decide⟩

/-- Helper for C10: the successor loop never reads the `cost` (or `from'`)
field of an edge, so two edge lists agreeing on their endpoints are
processed identically (given the same comparator). -/
theorem processEdgesCongr {N : Type} [DecidableEq N]
    (out1 out2 : N → List (Edge N)) (cmp : N → N → Int) (goal : N → Bool)
    (q : Entry N) (closed : List (Entry N)) :
    ∀ (es1 es2 : List (Edge N)),
      es1.map (fun e => (e.from', e.to')) = es2.map (fun e => (e.from', e.to')) →
      ∀ op, processEdges ⟨out1, cmp⟩ goal q closed es1 op =
            processEdges ⟨out2, cmp⟩ goal q closed es2 op := by
  intro es1
  induction es1 with
  | nil =>
    intro es2 hm op
    cases es2 with
    | nil => rfl
    | cons _ _ => simp at hm
  | cons e1 t1 ih =>
    intro es2 hm op
    cases es2 with
    | nil => simp at hm
    | cons e2 t2 =>
      simp only [List.map_cons, List.cons.injEq, Prod.mk.injEq] at hm
      obtain ⟨⟨-, ht⟩, htl⟩ := hm
      simp only [processEdges, ht]
      by_cases hgoal : goal e2.to' = true
      · simp [hgoal]
      · have hgoal' : goal e2.to' = false := by simpa using hgoal
        simp only [hgoal', Bool.false_eq_true, if_false]
        dsimp only
        split_ifs with h1 h2
        · exact ih t2 htl op
        · exact ih t2 htl op
        · exact ih t2 htl _

/-- Helper for C10: one expansion step is insensitive to edge costs. -/
theorem expandStepCongr {N : Type} [DecidableEq N]
    (out1 out2 : N → List (Edge N)) (cmp : N → N → Int) (goal : N → Bool)
    (h : N → Int)
    (hsame : ∀ n, (out1 n).map (fun e => (e.from', e.to')) =
        (out2 n).map (fun e => (e.from', e.to')))
    (s : St N) :
    expandStep ⟨out1, cmp⟩ goal h s = expandStep ⟨out2, cmp⟩ goal h s := by
  unfold expandStep
  cases hq : s.open'.get? (selectIndex h s.open') with
  | none => rfl
  | some q =>
    dsimp only
    rw [processEdgesCongr out1 out2 cmp goal q s.closed _ _ (hsame q.node)]

/-- Helper for C10: the whole loop is insensitive to edge costs. -/
theorem loopCongr {N : Type} [DecidableEq N]
    (out1 out2 : N → List (Edge N)) (cmp : N → N → Int) (goal : N → Bool)
    (h : N → Int) (timeout : Int) (clock : Nat → Int)
    (hsame : ∀ n, (out1 n).map (fun e => (e.from', e.to')) =
        (out2 n).map (fun e => (e.from', e.to'))) :
    ∀ (fuel t : Nat) (s : St N),
      loop ⟨out1, cmp⟩ goal h timeout clock fuel t s =
        loop ⟨out2, cmp⟩ goal h timeout clock fuel t s := by
  intro fuel
  induction fuel with
  | zero => intro t s; rfl
  | succ f ih =>
    intro t s
    simp only [loop]
    rw [expandStepCongr out1 out2 cmp goal h hsame s]
    split
    · cases expandStep ⟨out2, cmp⟩ goal h s with
      | inl r => rfl
      | inr s' => exact ih _ _
    · rfl

/-- C10 (amended): the result of `aStarSearch` is independent of the edge
cost fields — for two graphs identical except for the (non-negative) costs
attached to their edges, and the same start, goal, heuristic, budget and
clock, the search returns the same path and the same cost number (the
engine never reads an edge's cost and accumulates a fixed increment of 1
per edge); the returned cost, however, is not in general the number of
edges in the returned path (see the counterexample). -/
theorem c10_result_ignores_edge_costs {N : Type} [DecidableEq N]
    (out1 out2 : N → List (Edge N)) (cmp : N → N → Int) (start : N)
    (goal : N → Bool) (h : N → Int) (timeout : Int) (clock : Nat → Int)
    (fuel : Nat)
    (hsame : ∀ n, (out1 n).map (fun e => (e.from', e.to')) =
        (out2 n).map (fun e => (e.from', e.to')))
    (h1 : ∀ n, ∀ e ∈ out1 n, 0 ≤ e.cost)
    (h2 : ∀ n, ∀ e ∈ out2 n, 0 ≤ e.cost) :
    aStarSearch ⟨out1, cmp⟩ start goal h timeout clock fuel =
      aStarSearch ⟨out2, cmp⟩ start goal h timeout clock fuel :=
  loopCongr out1 out2 cmp goal h timeout clock hsame fuel 0 _

/-- C10 (witness): the amended theorem applied to `G2` and `G2b`, which
differ only in the cost (5 versus 7) of their single edge. -/
theorem c10_result_ignores_edge_costs_w :
    aStarSearch ⟨G2.outgoingEdges, natCmp⟩ 0 goalIs1 hZero 100 czero 10 =
      aStarSearch ⟨G2b.outgoingEdges, natCmp⟩ 0 goalIs1 hZero 100 czero 10 :=
  c10_result_ignores_edge_costs G2.outgoingEdges G2b.outgoingEdges natCmp 0
    goalIs1 hZero 100 czero 10
    (by intro n; rcases n with _ | n <;> rfl)
    (by
      intro n e he
      rcases n with _ | n
      · simp only [G2] at he
        rcases List.mem_singleton.mp he with rfl
        decide
      · simp [G2] at he)
    (by
      intro n e he
      rcases n with _ | n
      · simp only [G2b] at he
        rcases List.mem_singleton.mp he with rfl
        decide
      · simp [G2b] at he)
